import Mathlib

/-!
# go-ssb: connection gate, shutdown and blob-reference broadcaster

A shallow embedding of

* `sbot/new.go`: `Sbot.Close` and `Sbot.mkHandler`,
* `blobstore/push_pubsub.go`: `PushBlobPubsub` with `Subscribe`, `Publish`,
  `addSubscription` and `removeSubscription`.

Collaborators whose code lives in other packages (the authorizer, the plugin
managers, the networks, the error groups) are represented by the values they
return; every effect the embedded functions perform on them is recorded in an
explicit trace, so that "is not called" and "is called in this order" are
statements about a list.
-/

namespace Ssb

/-! ## Shared value types -/

/-- A Go `error` value: one handed back by a collaborator, or one produced by
`errors.Wrap` / `errors.Wrapf` around a cause. `nil` is `Option.none`. -/
inductive Error where
  | ext (code : Nat)
  | wrap (cause : Error) (msg : String)
  deriving DecidableEq, Repr

/-- The feed reference `ssb.FeedRef`: key bytes and the format tag `Algo`. -/
structure FeedRef where
  ID : List Nat
  Algo : String
  deriving DecidableEq, Repr

/-- The parts of package `ssb` that `mkHandler` uses and whose code is outside the
given sources: the function `GetFeedRefFromAddr`, the method `FeedRef.Equal` and the
constant `RefAlgoFeedGabby`. Nothing is assumed about them. -/
structure Package where
  GetFeedRefFromAddr : Nat → Except Error FeedRef
  Equal : FeedRef → FeedRef → Bool
  RefAlgoFeedGabby : String

/-! ## Machine integers -/

/-- Addition of two `uint` values of width `w`: wraps around modulo `2 ^ w`. -/
def uintAdd (w a b : Nat) : Nat := (a + b) % 2 ^ w

/-- The conversion `int(x)` of a `uint` of width `w`: the two's complement reading
of the same bit pattern. -/
def uintToInt (w x : Nat) : Int :=
  if x < 2 ^ (w - 1) then (x : Int) else (x : Int) - 2 ^ w

/-- Width of `uint` and `int` on the 64-bit targets. -/
def uintBits : Nat := 64

/-! ## `sbot/new.go` -/

/-- A `net.Addr`, as far as the gate looks at it. -/
abbrev Addr := Nat

/-- A `net.Conn`: the gate only reads `RemoteAddr()`. -/
structure Conn where
  RemoteAddr : Addr
  fd : Nat
  deriving DecidableEq, Repr

/-- A `muxrpc.Handler`. -/
abbrev Handler := Nat

/-- The pair `(muxrpc.Handler, error)` returned by a handler constructor. -/
abbrev HandlerResult := Option Handler × Option Error

/-- An `ssb.PluginManager`, reduced to `MakeHandler`. -/
structure PluginManager where
  MakeHandler : Conn → HandlerResult

/-- An `ssb.Authorizer` with internal state `α`: `Authorize` returns `nil`
(`none`) or an error, and the next state of the authorizer. -/
structure Authorizer (α : Type) where
  Authorize : α → FeedRef → Option Error × α

/-- An `ssb.Network` handle. -/
abbrev Network := Nat

/-- The fields of `Sbot` read or written by `Close` and `mkHandler`.
`GraphBuilder` stands for the method `GraphBuilder.Authorizer(from, maxHops)`;
`KeyPairId` for `KeyPair.Id`. -/
structure Sbot (α : Type) where
  closed : Bool
  closeErr : Option Error
  promisc : Bool
  hopCount : Nat
  networks : List Network
  KeyPairId : FeedRef
  public : PluginManager
  master : PluginManager
  GraphBuilder : FeedRef → Int → Authorizer α

/-- What the collaborators answer during one run of `Close`: the result of
`Close()` on the network at each index, of the two `Wait()` calls and of
`closers.Close()`. -/
structure World where
  networkClose : Nat → Option Error
  muxservGroupWait : Option Error
  idxDoneWait : Option Error
  closersClose : Option Error

/-- The calls `Close` makes on its collaborators. -/
inductive Event where
  | networkClose (i : Nat) (n : Network)
  | connTrackerCloseAll (i : Nat) (n : Network)
  | muxservGroupWait
  | idxDoneWait
  | closersClose
  deriving DecidableEq, Repr

/-- The loop `for i, n := range s.networks` of `Close`, started at index `i`:
the wrapped error of the first network whose `Close` fails (or `none`), and the
calls made. -/
def closeNetworks (w : World) : Nat → List Network → Option Error × List Event
  | _, [] => (none, [])
  | i, n :: rest =>
    match w.networkClose i with
    | some err =>
      (some (Error.wrap err ("sbot: failed to close network node #" ++ toString i)),
        [Event.networkClose i n])
    | none =>
      let r := closeNetworks w (i + 1) rest
      (r.1, Event.networkClose i n :: Event.connTrackerCloseAll i n :: r.2)

/-- The method `Sbot.Close`: the returned error, the node afterwards and the calls made
(log lines are left out). -/
def Sbot.Close {α : Type} (s : Sbot α) (w : World) : Option Error × Sbot α × List Event :=
  if s.closed then
    (s.closeErr, s, [])
  else
    let s1 : Sbot α := { s with closed := true }
    match closeNetworks w 0 s.networks with
    | (some e, ev) => (some e, { s1 with closeErr := some e }, ev)
    | (none, ev) =>
      match w.muxservGroupWait with
      | some err =>
        let e := Error.wrap err "sbot: muxrpc serve group shutdown failed"
        (some e, { s1 with closeErr := some e }, ev ++ [Event.muxservGroupWait])
      | none =>
        match w.idxDoneWait with
        | some err =>
          let e := Error.wrap err "sbot: index group shutdown failed"
          (some e, { s1 with closeErr := some e },
            ev ++ [Event.muxservGroupWait, Event.idxDoneWait])
        | none =>
          match w.closersClose with
          | some err =>
            (some err, { s1 with closeErr := some err },
              ev ++ [Event.muxservGroupWait, Event.idxDoneWait, Event.closersClose])
          | none =>
            (none, s1, ev ++ [Event.muxservGroupWait, Event.idxDoneWait, Event.closersClose])

/-- Calling `Close` again and again, each time against collaborators that may
answer differently: the results and traces of the successive calls. -/
def closeRepeatedly {α : Type} : Sbot α → List World → List (Option Error × List Event)
  | _, [] => []
  | s, w :: ws =>
    let r := s.Close w
    (r.1, r.2.2) :: closeRepeatedly r.2.1 ws

/-- The calls of the first stage when every network closes: for each network, in
list order from index `i`, its `Close` and then `CloseAll` on its connection tracker. -/
def networkStage : Nat → List Network → List Event
  | _, [] => []
  | i, n :: rest =>
    Event.networkClose i n :: Event.connTrackerCloseAll i n :: networkStage (i + 1) rest

/-- The fixed stage order of a shutdown in which nothing fails: the networks, the
connection-serving group, the index group, the closers. -/
def stageOrder (networks : List Network) : List Event :=
  networkStage 0 networks ++ [Event.muxservGroupWait, Event.idxDoneWait, Event.closersClose]

/-- The message `errors.Wrapf` attaches when the network at index `i` fails to close. -/
def networkCloseMsg (i : Nat) : String :=
  "sbot: failed to close network node #" ++ toString i

/-- The maximum hop count `int(s.hopCount+2)` computed by `mkHandler`. -/
def Sbot.mkHandlerMaxHops {α : Type} (s : Sbot α) : Int :=
  uintToInt uintBits (uintAdd uintBits s.hopCount 2)

/-- One run of the function returned by `mkHandler`: the `(handler, error)` pair, the
state of the authorizer afterwards and the arguments of the `Authorize` calls made. -/
structure HandlerRun (α : Type) where
  result : HandlerResult
  authState : α
  authorizeCalls : List FeedRef

/-- The closure returned by `mkHandler`, with the authorizer `auth` it captures.
It runs under `closedMu`, hence as one step; the latency observation does not enter
the result and is left out, as is the commented-out `peerPlug` branch. -/
def Sbot.connToHandler {α : Type} (s : Sbot α) (ssb : Package) (auth : Authorizer α)
    (a : α) (conn : Conn) : HandlerRun α :=
  match ssb.GetFeedRefFromAddr conn.RemoteAddr with
  | Except.error err =>
    ⟨(none, some (Error.wrap err "sbot: expected an address containing an shs-bs addr")), a, []⟩
  | Except.ok remote =>
    if ssb.Equal s.KeyPairId remote then
      ⟨s.master.MakeHandler conn, a, []⟩
    else if s.promisc then
      ⟨s.public.MakeHandler conn, a, []⟩
    else
      match auth.Authorize a remote with
      | (none, a1) => ⟨s.public.MakeHandler conn, a1, [remote]⟩
      | (some _, a1) =>
        let remote2 : FeedRef := { remote with Algo := ssb.RefAlgoFeedGabby }
        match auth.Authorize a1 remote2 with
        | (none, a2) => ⟨s.public.MakeHandler conn, a2, [remote, remote2]⟩
        | (some err, a2) => ⟨(none, some err), a2, [remote, remote2]⟩

/-- The method `Sbot.mkHandler`. -/
def Sbot.mkHandler {α : Type} (s : Sbot α) (ssb : Package) : α → Conn → HandlerRun α :=
  let auth := s.GraphBuilder s.KeyPairId s.mkHandlerMaxHops
  s.connToHandler ssb auth

/-! ## `blobstore/push_pubsub.go` -/

/-- A `refs.BlobRef`; the broadcaster never looks inside. -/
abbrev BlobRef := Nat

/-- The identity of a channel made by `make(chan refs.BlobRef)`. -/
abbrev Chan := Nat

/-- The identity of a `context.Context`, the cancellation scope of a subscription. -/
abbrev Context := Nat

/-- The struct `channelWithContext`. -/
structure channelWithContext where
  Ch : Chan
  Ctx : Context
  deriving DecidableEq, Repr

/-- The struct `PushBlobPubsub` (the mutex is left out: every method below runs
as one atomic step, which is what holding `g.lock` for its whole body gives). -/
structure PushBlobPubsub where
  subscriptions : List channelWithContext
  deriving DecidableEq, Repr

/-- The constructor `NewPushBlobPubsub`. -/
def NewPushBlobPubsub : PushBlobPubsub := ⟨[]⟩

/-- The method `addSubscription`. -/
def PushBlobPubsub.addSubscription (g : PushBlobPubsub) (ctx : Context) (ch : Chan) :
    PushBlobPubsub :=
  { subscriptions := g.subscriptions ++ [{ Ch := ch, Ctx := ctx }] }

/-- The loop `for i := range g.subscriptions` of `removeSubscription`, with `remaining`
iterations left and the index at `i`: on the first index whose channel is `ch` the
list becomes `append(subs[:i], subs[i+1:]...)`; `none` when the loop runs out. -/
def removeSubscriptionLoop (subs : List channelWithContext) (ch : Chan) :
    Nat → Nat → Option (List channelWithContext)
  | 0, _ => none
  | remaining + 1, i =>
    match subs.get? i with
    | none => none
    | some sub =>
      if sub.Ch = ch then some (subs.take i ++ subs.drop (i + 1))
      else removeSubscriptionLoop subs ch remaining (i + 1)

/-- The value `removeSubscription` panics with. -/
def alreadyRemovedPanic : String :=
  "somehow the subscription was already removed, this must be a bug"

/-- The method `removeSubscription`: `Except.error` is the panic. -/
def PushBlobPubsub.removeSubscription (g : PushBlobPubsub) (ch : Chan) :
    Except String PushBlobPubsub :=
  match removeSubscriptionLoop g.subscriptions ch g.subscriptions.length 0 with
  | some subs => Except.ok { subscriptions := subs }
  | none => Except.error alreadyRemovedPanic

/-- The two communications of the `select` in `Publish`. -/
inductive SelectCase where
  | send
  | done
  deriving DecidableEq, Repr

/-- What the rest of the program does to one `select` of `Publish`:
whether a receiver is waiting on `sub.Ch` and whether `sub.Ctx.Done()` is closed when
the statement is reached, the pseudo-random choice taken when both communications
can proceed, and, when neither can, the one that becomes possible first
(`none`: neither ever does and the statement blocks for good). -/
structure SelectEnv where
  recvReady : Bool
  ctxDone : Bool
  choice : SelectCase
  wake : Option SelectCase
  deriving DecidableEq, Repr

/-- The Go `select` with the cases `sub.Ch <- value` and `<-sub.Ctx.Done()`. -/
def selectCase (e : SelectEnv) : Option SelectCase :=
  match e.recvReady, e.ctxDone with
  | true, false => some SelectCase.send
  | false, true => some SelectCase.done
  | true, true => some e.choice
  | false, false => e.wake

/-- One resolved `select` of `Publish`: the subscription, the value offered and
the communication that proceeded. -/
structure SelectEvent where
  sub : channelWithContext
  value : BlobRef
  case : SelectCase
  deriving DecidableEq, Repr

/-- The loop `for _, sub := range g.subscriptions` of `Publish`, at index `i`;
`env j` drives the `select` of the subscription at index `j`. `none` when a
`select` blocks for good. -/
def publishLoop (value : BlobRef) (env : Nat → SelectEnv) :
    Nat → List channelWithContext → Option (List SelectEvent)
  | _, [] => some []
  | i, sub :: rest =>
    match selectCase (env i) with
    | none => none
    | some c =>
      match publishLoop value env (i + 1) rest with
      | none => none
      | some evs => some ({ sub := sub, value := value, case := c } :: evs)

/-- The method `Publish`: the broadcaster when it returns, and the resolved selects
in the order they ran; `none` when it never returns. -/
def PushBlobPubsub.Publish (g : PushBlobPubsub) (value : BlobRef) (env : Nat → SelectEnv) :
    Option (PushBlobPubsub × List SelectEvent) :=
  match publishLoop value env 0 g.subscriptions with
  | none => none
  | some evs => some (g, evs)

/-- Successive `Publish` calls, each with its value and its environment. -/
def publishAll : PushBlobPubsub → List (BlobRef × (Nat → SelectEnv)) →
    Option (PushBlobPubsub × List SelectEvent)
  | g, [] => some (g, [])
  | g, (value, env) :: calls =>
    match g.Publish value env with
    | none => none
    | some (g1, evs) =>
      match publishAll g1 calls with
      | none => none
      | some (g2, evs2) => some (g2, evs ++ evs2)

/-- The values received on channel `ch`, in order, according to a trace of selects. -/
def received (ch : Chan) (trace : List SelectEvent) : List BlobRef :=
  (trace.filter (fun ev => decide (ev.sub.Ch = ch) && decide (ev.case = SelectCase.send))).map
    (fun ev => ev.value)

/-- The broadcaster together with what surrounds it: the channels allocated so far,
the scopes that have concluded, every subscription a `Subscribe` call created, and
those whose watcher goroutine has already run its removal. -/
structure Broadcaster where
  g : PushBlobPubsub
  nextCh : Chan
  concluded : List Context
  created : List channelWithContext
  removed : List channelWithContext
  closedChans : List Chan
  deriving DecidableEq, Repr

/-- A fresh broadcaster. -/
def Broadcaster.init : Broadcaster :=
  { g := NewPushBlobPubsub, nextCh := 0, concluded := [], created := [], removed := [],
    closedChans := [] }

/-- The method `Subscribe`, up to its `return`: a new channel is made and registered
with `ctx`, and the watcher goroutine is started. -/
def Broadcaster.Subscribe (b : Broadcaster) (ctx : Context) : Chan × Broadcaster :=
  let ch := b.nextCh
  (ch, { b with
    g := b.g.addSubscription ctx ch
    nextCh := b.nextCh + 1
    created := b.created ++ [{ Ch := ch, Ctx := ctx }] })

/-- The body of the watcher goroutine of subscription `sub` past `<-ctx.Done()`:
`removeSubscription(ch)` and `close(ch)`. It runs once, and only when the scope has
concluded; `none` when it cannot run (no such pending watcher, scope still open)
or when `removeSubscription` panics. -/
def Broadcaster.watcher (b : Broadcaster) (sub : channelWithContext) : Option Broadcaster :=
  if sub ∈ b.created ∧ sub ∉ b.removed ∧ sub.Ctx ∈ b.concluded then
    match b.g.removeSubscription sub.Ch with
    | Except.ok g1 =>
      some { b with g := g1, removed := sub :: b.removed, closedChans := sub.Ch :: b.closedChans }
    | Except.error _ => none
  else none

/-- The mutations of the broadcaster. -/
inductive Action where
  | subscribe (ctx : Context)
  | conclude (ctx : Context)
  | watcher (sub : channelWithContext)
  | publish (value : BlobRef) (env : Nat → SelectEnv)

/-- One mutation; `none` when it cannot happen in this state. -/
def Broadcaster.step (b : Broadcaster) : Action → Option Broadcaster
  | Action.subscribe ctx => some (b.Subscribe ctx).2
  | Action.conclude ctx => some { b with concluded := ctx :: b.concluded }
  | Action.watcher sub => b.watcher sub
  | Action.publish value env =>
    match b.g.Publish value env with
    | some (g1, _) => some { b with g := g1 }
    | none => none

/-- A sequence of mutations. -/
def Broadcaster.run : Broadcaster → List Action → Option Broadcaster
  | b, [] => some b
  | b, a :: rest =>
    match b.step a with
    | some b1 => b1.run rest
    | none => none

/-- The bookkeeping around the broadcaster is consistent: channels handed out are below
the allocation counter and pairwise distinct, the registered subscriptions are the
created ones whose watcher has not run its removal, in creation order, and a watcher
has run its removal only for a created subscription whose scope has concluded. -/
structure Broadcaster.Consistent (b : Broadcaster) : Prop where
  fresh : ∀ sub ∈ b.created, sub.Ch < b.nextCh
  distinct : (b.created.map (fun x => x.Ch)).Nodup
  active : b.g.subscriptions = b.created.filter (fun x => decide (x ∉ b.removed))
  removedOk : ∀ sub ∈ b.removed, sub ∈ b.created ∧ sub.Ctx ∈ b.concluded

/-! ## Concrete inputs -/

/-- A package in which address `0` does not parse, every other address `n` parses to
the `ed25519` identity with key bytes `[n]`, and `Equal` compares both fields. -/
def pkgEx : Package :=
  { GetFeedRefFromAddr := fun addr =>
      if addr = 0 then Except.error (Error.ext 0) else Except.ok { ID := [addr], Algo := "ed25519" }
    Equal := fun a b => decide (a.ID = b.ID) && decide (a.Algo = b.Algo)
    RefAlgoFeedGabby := "ggfeed-v1" }

/-- An authorizer that counts its calls, knows the key `[7]` under the tag `ggfeed-v1`
only, and answers error `1` for an `ed25519` identity and error `2` for any other. -/
def authEx : Authorizer Nat :=
  { Authorize := fun a r =>
      if r.ID = [7] ∧ r.Algo = "ggfeed-v1" then (none, a + 1)
      else if r.Algo = "ed25519" then (some (Error.ext 1), a + 1)
      else (some (Error.ext 2), a + 1) }

/-- A node with identity `[1]`, two networks and the given settings. -/
def sbotEx (promisc : Bool) (hopCount : Nat) : Sbot Nat :=
  { closed := false
    closeErr := none
    promisc := promisc
    hopCount := hopCount
    networks := [10, 11]
    KeyPairId := { ID := [1], Algo := "ed25519" }
    public := { MakeHandler := fun conn => (some (100 + conn.fd), none) }
    master := { MakeHandler := fun conn => (some (200 + conn.fd), none) }
    GraphBuilder := fun _ _ => authEx }

/-- Collaborators for one run of `Close`: network `1` answers `net1`, every other
network closes, and the two groups and the closers answer as given. -/
def worldEx (net1 mux idx closers : Option Error) : World :=
  { networkClose := fun i => if i = 1 then net1 else none
    muxservGroupWait := mux
    idxDoneWait := idx
    closersClose := closers }

/-- An environment in which every `select` finds both a waiting receiver and a concluded
scope, and the pseudo-random choice falls on the send. -/
def envBothReady : Nat → SelectEnv :=
  fun _ => { recvReady := true, ctxDone := true, choice := SelectCase.send, wake := none }

/-- An environment in which the `select` at index `0` finds neither a receiver nor a
concluded scope, ever, and every other `select` finds a waiting receiver. -/
def envStalled : Nat → SelectEnv :=
  fun j =>
    if j = 0 then
      { recvReady := false, ctxDone := false, choice := SelectCase.send, wake := none }
    else { recvReady := true, ctxDone := false, choice := SelectCase.send, wake := none }

/-- An environment in which the `select` at index `0` finds a waiting receiver and every
other `select` finds a concluded scope and no receiver. -/
def envFirstReceives : Nat → SelectEnv :=
  fun j =>
    if j = 0 then
      { recvReady := true, ctxDone := false, choice := SelectCase.done, wake := none }
    else { recvReady := false, ctxDone := true, choice := SelectCase.send, wake := none }

/-- An environment in which every `select` first waits and is then woken by a receiver. -/
def envAllReceiveLater : Nat → SelectEnv :=
  fun _ =>
    { recvReady := false, ctxDone := false, choice := SelectCase.done,
      wake := some SelectCase.send }

/-- The state after `Subscribe` with scope `5` and the conclusion of scope `5`, the
watcher not having run yet. -/
def bConcludedPending : Broadcaster :=
  { g := { subscriptions := [⟨0, 5⟩] }, nextCh := 1, concluded := [5],
    created := [⟨0, 5⟩], removed := [], closedChans := [] }

/-- The state after two `Subscribe` calls with scopes `5` and `6`, the conclusion of
scope `5`, the removal by the first watcher, and a `Publish`. -/
def bOneRemoved : Broadcaster :=
  { g := { subscriptions := [⟨1, 6⟩] }, nextCh := 2, concluded := [5],
    created := [⟨0, 5⟩, ⟨1, 6⟩], removed := [⟨0, 5⟩], closedChans := [0] }

/-! ## Machine integers: lemmas -/

theorem uintToInt_uintAdd_of_lt (w a b : Nat) (hw : 0 < w) (h : a + b < 2 ^ (w - 1)) :
    uintToInt w (uintAdd w a b) = (a : Int) + (b : Int) := by
  have hlt : 2 ^ (w - 1) < 2 ^ w := Nat.pow_lt_pow_right (by decide) (by omega)
  have hmod : (a + b) % 2 ^ w = a + b := Nat.mod_eq_of_lt (by omega)
  unfold uintToInt uintAdd
  rw [hmod, if_pos h]
  push_cast
  rfl

/-! ## The connection gate -/

/-- C1: on a non-promiscuous node, for a connection whose address parses to a remote
identity that is not the node's own, when `Authorize(remote)` fails and `Authorize` of
the same key bytes under the alternate tag succeeds, the handler function built by
`mkHandler` returns the result of `public.MakeHandler` (the authorizer is whatever
`GraphBuilder.Authorizer` returned, and may be stateful). -/
theorem mkHandler_alternate_tag_granted {α : Type} (ssb : Package) (s : Sbot α) (a a1 a2 : α)
    (conn : Conn) (remote : FeedRef) (e1 : Error)
    (hparse : ssb.GetFeedRefFromAddr conn.RemoteAddr = Except.ok remote)
    (hself : ssb.Equal s.KeyPairId remote = false)
    (hpromisc : s.promisc = false)
    (hfirst : (s.GraphBuilder s.KeyPairId s.mkHandlerMaxHops).Authorize a remote = (some e1, a1))
    (hsecond : (s.GraphBuilder s.KeyPairId s.mkHandlerMaxHops).Authorize a1
      { remote with Algo := ssb.RefAlgoFeedGabby } = (none, a2)) :
    (s.mkHandler ssb a conn).result = s.public.MakeHandler conn := by
  simp [Sbot.mkHandler, Sbot.connToHandler, hparse, hself, hpromisc, hfirst, hsecond]

theorem mkHandler_alternate_tag_granted_witness :
    (sbotEx false 1).public.MakeHandler ⟨7, 3⟩ = (some 103, none) ∧
    ((sbotEx false 1).mkHandler pkgEx 0 ⟨7, 3⟩).result = (sbotEx false 1).public.MakeHandler ⟨7, 3⟩ :=
  ⟨rfl, mkHandler_alternate_tag_granted pkgEx (sbotEx false 1) 0 1 2 ⟨7, 3⟩
    { ID := [7], Algo := "ed25519" } (Error.ext 1) rfl (by decide) rfl (by decide) (by decide)⟩

/-- C2: on a non-promiscuous node, for a connection whose address parses to a non-self
remote identity, the handler function built by `mkHandler` calls `Authorize` at most
twice, and when the primary attempt and the alternate-tag attempt both fail it returns
no handler together with exactly the error of the second attempt. -/
theorem mkHandler_rejects_with_second_error {α : Type} (ssb : Package) (s : Sbot α) (a : α)
    (conn : Conn) (remote : FeedRef)
    (hparse : ssb.GetFeedRefFromAddr conn.RemoteAddr = Except.ok remote)
    (hself : ssb.Equal s.KeyPairId remote = false)
    (hpromisc : s.promisc = false) :
    (s.mkHandler ssb a conn).authorizeCalls.length ≤ 2 ∧
    ∀ (e1 e2 : Error) (a1 a2 : α),
      (s.GraphBuilder s.KeyPairId s.mkHandlerMaxHops).Authorize a remote = (some e1, a1) →
      (s.GraphBuilder s.KeyPairId s.mkHandlerMaxHops).Authorize a1
        { remote with Algo := ssb.RefAlgoFeedGabby } = (some e2, a2) →
      (s.mkHandler ssb a conn).result = (none, some e2) ∧
      (s.mkHandler ssb a conn).authorizeCalls =
        [remote, { remote with Algo := ssb.RefAlgoFeedGabby }] := by
  constructor
  · simp only [Sbot.mkHandler, Sbot.connToHandler, hparse, hself, hpromisc]
    rcases h1 : (s.GraphBuilder s.KeyPairId s.mkHandlerMaxHops).Authorize a remote with ⟨r1, a1⟩
    cases r1 with
    | none => simp
    | some e1 =>
      rcases h2 : (s.GraphBuilder s.KeyPairId s.mkHandlerMaxHops).Authorize a1
        { remote with Algo := ssb.RefAlgoFeedGabby } with ⟨r2, a2⟩
      cases r2 <;> simp [h2]
  · intro e1 e2 a1 a2 h1 h2
    simp [Sbot.mkHandler, Sbot.connToHandler, hparse, hself, hpromisc, h1, h2]

theorem mkHandler_rejects_with_second_error_witness :
    ((sbotEx false 1).mkHandler pkgEx 0 ⟨5, 3⟩).result = (none, some (Error.ext 2)) ∧
    ((sbotEx false 1).mkHandler pkgEx 0 ⟨5, 3⟩).authorizeCalls =
      [{ ID := [5], Algo := "ed25519" }, { ID := [5], Algo := "ggfeed-v1" }] :=
  (mkHandler_rejects_with_second_error pkgEx (sbotEx false 1) 0 ⟨5, 3⟩
    { ID := [5], Algo := "ed25519" } rfl (by decide) rfl).2 (Error.ext 1) (Error.ext 2) 1 2
    (by decide) (by decide)

/-- C4: for a connection whose address parses to a remote identity equal to the node's
own, the handler function built by `mkHandler` returns the result of
`master.MakeHandler`, whatever `promisc` is and whatever the authorizer is, and makes
no call to `Authorize`. -/
theorem mkHandler_self_gets_master {α : Type} (ssb : Package) (s : Sbot α) (a : α)
    (conn : Conn) (remote : FeedRef)
    (hparse : ssb.GetFeedRefFromAddr conn.RemoteAddr = Except.ok remote)
    (hself : ssb.Equal s.KeyPairId remote = true) :
    (s.mkHandler ssb a conn).result = s.master.MakeHandler conn ∧
    (s.mkHandler ssb a conn).authorizeCalls = [] ∧
    (s.mkHandler ssb a conn).authState = a := by
  simp [Sbot.mkHandler, Sbot.connToHandler, hparse, hself]

theorem mkHandler_self_gets_master_witness :
    ((sbotEx false 1).mkHandler pkgEx 0 ⟨1, 3⟩).result = (some 203, none) ∧
    ((sbotEx false 1).mkHandler pkgEx 0 ⟨1, 3⟩).authorizeCalls = [] ∧
    ((sbotEx false 1).mkHandler pkgEx 0 ⟨1, 3⟩).authState = 0 :=
  mkHandler_self_gets_master pkgEx (sbotEx false 1) 0 ⟨1, 3⟩ { ID := [1], Algo := "ed25519" }
    rfl (by decide)

/-- C5: on a promiscuous node, for a connection whose address parses to a remote identity
different from the node's own, the handler function built by `mkHandler` returns the
result of `public.MakeHandler` and makes no call to `Authorize`; the authorizer does
not enter the outcome. -/
theorem mkHandler_promisc_gets_public {α : Type} (ssb : Package) (s : Sbot α) (a : α)
    (conn : Conn) (remote : FeedRef)
    (hparse : ssb.GetFeedRefFromAddr conn.RemoteAddr = Except.ok remote)
    (hself : ssb.Equal s.KeyPairId remote = false)
    (hpromisc : s.promisc = true) :
    (s.mkHandler ssb a conn).result = s.public.MakeHandler conn ∧
    (s.mkHandler ssb a conn).authorizeCalls = [] ∧
    (s.mkHandler ssb a conn).authState = a := by
  simp [Sbot.mkHandler, Sbot.connToHandler, hparse, hself, hpromisc]

theorem mkHandler_promisc_gets_public_witness :
    ((sbotEx true 1).mkHandler pkgEx 0 ⟨5, 3⟩).result = (some 103, none) ∧
    ((sbotEx true 1).mkHandler pkgEx 0 ⟨5, 3⟩).authorizeCalls = [] ∧
    ((sbotEx true 1).mkHandler pkgEx 0 ⟨5, 3⟩).authState = 0 :=
  mkHandler_promisc_gets_public pkgEx (sbotEx true 1) 0 ⟨5, 3⟩ { ID := [5], Algo := "ed25519" }
    rfl (by decide) rfl

/-- C3, as stated, fails: with the largest `uint` as configured hop count, `hopCount+2`
wraps around and `mkHandler` passes `1` to `GraphBuilder.Authorizer`, not the hop count
plus 2; with `2^63 - 2` the conversion to `int` turns the sum negative. -/
theorem mkHandlerMaxHops_wraps :
    (sbotEx false (2 ^ 64 - 1)).hopCount < 2 ^ 64 ∧
    (sbotEx false (2 ^ 64 - 1)).mkHandlerMaxHops = 1 ∧
    (sbotEx false (2 ^ 64 - 1)).mkHandlerMaxHops ≠
      ((sbotEx false (2 ^ 64 - 1)).hopCount : Int) + 2 ∧
    (sbotEx false (2 ^ 63 - 2)).mkHandlerMaxHops = -2 ^ 63 := by
  simp [sbotEx, Sbot.mkHandlerMaxHops, uintToInt, uintAdd, uintBits]

/-- C3, amended: for every configured hop count with `hopCount + 2` in the range of
`int` (below `2^63`), the maximum hop count that `mkHandler` passes to
`GraphBuilder.Authorizer` equals the configured hop count plus 2, as integers. -/
theorem mkHandler_passes_hopCount_plus_two {α : Type} (ssb : Package) (s : Sbot α)
    (h : s.hopCount + 2 < 2 ^ 63) :
    s.mkHandlerMaxHops = (s.hopCount : Int) + 2 ∧
    s.mkHandler ssb =
      s.connToHandler ssb (s.GraphBuilder s.KeyPairId ((s.hopCount : Int) + 2)) := by
  have hm : s.mkHandlerMaxHops = (s.hopCount : Int) + 2 := by
    unfold Sbot.mkHandlerMaxHops
    rw [uintToInt_uintAdd_of_lt uintBits s.hopCount 2 (by decide) (by simpa [uintBits] using h)]
    rfl
  refine ⟨hm, ?_⟩
  unfold Sbot.mkHandler
  rw [hm]

theorem mkHandler_passes_hopCount_plus_two_witness :
    (sbotEx false 1).mkHandlerMaxHops = ((sbotEx false 1).hopCount : Int) + 2 ∧
    (sbotEx false 1).mkHandler pkgEx =
      (sbotEx false 1).connToHandler pkgEx
        ((sbotEx false 1).GraphBuilder (sbotEx false 1).KeyPairId
          (((sbotEx false 1).hopCount : Int) + 2)) :=
  mkHandler_passes_hopCount_plus_two pkgEx (sbotEx false 1) (by decide)

/-! ## Shutdown -/

theorem closeNetworks_of_all_ok (w : World) (nets : List Network) (i : Nat)
    (hok : ∀ j, j < nets.length → w.networkClose (i + j) = none) :
    closeNetworks w i nets = (none, networkStage i nets) := by
  induction nets generalizing i with
  | nil => rfl
  | cons n rest ih =>
    have h0 : w.networkClose i = none := by simpa using hok 0 (by simp)
    have hrest : ∀ j, j < rest.length → w.networkClose (i + 1 + j) = none := by
      intro j hj
      have := hok (j + 1) (by simpa using hj)
      rwa [show i + (j + 1) = i + 1 + j by omega] at this
    simp [closeNetworks, networkStage, h0, ih (i + 1) hrest]

theorem closeNetworks_of_first_failure (w : World) (nets : List Network) (i k : Nat)
    (n : Network) (e : Error) (hn : nets.get? k = some n)
    (hok : ∀ j, j < k → w.networkClose (i + j) = none)
    (hfail : w.networkClose (i + k) = some e) :
    closeNetworks w i nets =
      (some (Error.wrap e (networkCloseMsg (i + k))),
        networkStage i (nets.take k) ++ [Event.networkClose (i + k) n]) := by
  induction nets generalizing i k with
  | nil => simp at hn
  | cons m rest ih =>
    cases k with
    | zero =>
      have hm : m = n := by simpa using hn
      have h0 : w.networkClose i = some e := by simpa using hfail
      simp [closeNetworks, networkStage, networkCloseMsg, h0, hm]
    | succ k =>
      have h0 : w.networkClose i = none := by simpa using hok 0 (by omega)
      have hn1 : rest.get? k = some n := by simpa using hn
      have hok1 : ∀ j, j < k → w.networkClose (i + 1 + j) = none := by
        intro j hj
        have := hok (j + 1) (by omega)
        rwa [show i + (j + 1) = i + 1 + j by omega] at this
      have hfail1 : w.networkClose (i + 1 + k) = some e := by
        rwa [show i + (k + 1) = i + 1 + k by omega] at hfail
      have hik : i + 1 + k = i + (k + 1) := by omega
      simp [closeNetworks, networkStage, h0, ih (i + 1) k hn1 hok1 hfail1, hik]

theorem closeNetworks_trace_initial (w : World) (nets : List Network) (i : Nat) :
    ∃ rest, networkStage i nets = (closeNetworks w i nets).2 ++ rest := by
  induction nets generalizing i with
  | nil => exact ⟨[], rfl⟩
  | cons n rest ih =>
    cases h0 : w.networkClose i with
    | some e =>
      exact ⟨Event.connTrackerCloseAll i n :: networkStage (i + 1) rest, by
        simp [closeNetworks, networkStage, h0]⟩
    | none =>
      obtain ⟨r, hr⟩ := ih (i + 1)
      refine ⟨r, ?_⟩
      simp only [closeNetworks, networkStage, h0, List.cons_append]
      rw [← hr]

theorem closeNetworks_none_trace (w : World) (nets : List Network) (i : Nat)
    (h : (closeNetworks w i nets).1 = none) :
    (closeNetworks w i nets).2 = networkStage i nets := by
  induction nets generalizing i with
  | nil => rfl
  | cons n rest ih =>
    cases h0 : w.networkClose i with
    | some e => simp [closeNetworks, h0] at h
    | none =>
      simp only [closeNetworks, h0] at h ⊢
      simp [networkStage, ih (i + 1) h]

theorem Close_of_closed {α : Type} (s : Sbot α) (w : World) (h : s.closed = true) :
    s.Close w = (s.closeErr, s, []) := by
  simp [Sbot.Close, h]

/-- After any call of `Close` on a node whose `closeErr` is unset while it is open, the
node is closed and `closeErr` holds the error that call returned. -/
theorem Close_records_result {α : Type} (s : Sbot α) (w : World)
    (hinv : s.closed = false → s.closeErr = none) :
    (s.Close w).2.1.closed = true ∧ (s.Close w).2.1.closeErr = (s.Close w).1 := by
  cases hc : s.closed with
  | true => simp [Sbot.Close, hc]
  | false =>
    have hnone := hinv hc
    unfold Sbot.Close
    simp only [hc, Bool.false_eq_true, if_false]
    rcases hn : closeNetworks w 0 s.networks with ⟨r, ev⟩
    cases r with
    | some e => simp
    | none =>
      cases hm : w.muxservGroupWait with
      | some e => simp
      | none =>
        cases hi : w.idxDoneWait with
        | some e => simp
        | none =>
          cases hcl : w.closersClose with
          | some e => simp
          | none => simp [hnone]

/-- The condition "`closeErr` is unset while the node is open" holds for a new node and
is kept by `Close`, the only function that writes the two fields. -/
theorem Close_keeps_closeErr_unset_while_open {α : Type} (s : Sbot α) (w : World)
    (hinv : s.closed = false → s.closeErr = none) :
    (s.Close w).2.1.closed = false → (s.Close w).2.1.closeErr = none := by
  intro h
  rw [(Close_records_result s w hinv).1] at h
  exact absurd h (by decide)

theorem closeRepeatedly_of_closed {α : Type} (s : Sbot α) (ws : List World)
    (h : s.closed = true) :
    closeRepeatedly s ws = List.replicate ws.length (s.closeErr, []) := by
  induction ws with
  | nil => rfl
  | cons w ws ih =>
    simp [closeRepeatedly, Close_of_closed s w h, ih, List.replicate_succ]

/-- C6: `Sbot.Close` is idempotent. For every node (with `closeErr` unset while it is
still open, as `Close` alone writes it) and every first call, each later call of
`Close`, whatever the collaborators would answer by then, returns the error value the
first call returned (`nil` when it succeeded) and makes no call at all on a network,
a worker group or the closers. -/
theorem Close_idempotent {α : Type} (s : Sbot α) (w : World) (ws : List World)
    (hinv : s.closed = false → s.closeErr = none) :
    closeRepeatedly (s.Close w).2.1 ws = List.replicate ws.length ((s.Close w).1, []) := by
  have h := Close_records_result s w hinv
  rw [closeRepeatedly_of_closed _ ws h.1, h.2]

theorem Close_idempotent_witness :
    ((sbotEx false 1).closed = false → (sbotEx false 1).closeErr = none) ∧
    ((sbotEx false 1).Close (worldEx none (some (Error.ext 5)) none none)).1 =
      some (Error.wrap (Error.ext 5) "sbot: muxrpc serve group shutdown failed") ∧
    closeRepeatedly ((sbotEx false 1).Close (worldEx none (some (Error.ext 5)) none none)).2.1
        [worldEx none none none none, worldEx (some (Error.ext 6)) none none none] =
      List.replicate 2
        (((sbotEx false 1).Close (worldEx none (some (Error.ext 5)) none none)).1, []) :=
  ⟨fun _ => rfl, rfl,
    Close_idempotent (sbotEx false 1) (worldEx none (some (Error.ext 5)) none none)
      [worldEx none none none none, worldEx (some (Error.ext 6)) none none none] (fun _ => rfl)⟩

/-- C7: `Sbot.Close` on an open node runs its stages in the fixed order (1) the
networks, each closed and then its tracked connections closed, (2) the wait for the
connection-serving group, (3) the wait for the index group, (4) the closers: the calls
made are always an initial part of that order. The first stage that fails is the one
whose error `Close` returns (wrapped with the stage's message for stages 1 to 3, as is
for stage 4) and the calls stop at the failing call; when nothing fails `Close`
returns `nil` after the whole order. -/
theorem Close_stages_in_order {α : Type} (s : Sbot α) (w : World) (hopen : s.closed = false) :
    (∃ rest, stageOrder s.networks = (s.Close w).2.2 ++ rest) ∧
    (∀ (k : Nat) (n : Network) (e : Error), s.networks.get? k = some n →
      (∀ j, j < k → w.networkClose j = none) → w.networkClose k = some e →
      (s.Close w).1 = some (Error.wrap e (networkCloseMsg k)) ∧
      (s.Close w).2.2 = networkStage 0 (s.networks.take k) ++ [Event.networkClose k n]) ∧
    ((∀ j, j < s.networks.length → w.networkClose j = none) →
      (∀ e, w.muxservGroupWait = some e →
        (s.Close w).1 = some (Error.wrap e "sbot: muxrpc serve group shutdown failed") ∧
        (s.Close w).2.2 = networkStage 0 s.networks ++ [Event.muxservGroupWait]) ∧
      (w.muxservGroupWait = none →
        (∀ e, w.idxDoneWait = some e →
          (s.Close w).1 = some (Error.wrap e "sbot: index group shutdown failed") ∧
          (s.Close w).2.2 =
            networkStage 0 s.networks ++ [Event.muxservGroupWait, Event.idxDoneWait]) ∧
        (w.idxDoneWait = none →
          (∀ e, w.closersClose = some e →
            (s.Close w).1 = some e ∧ (s.Close w).2.2 = stageOrder s.networks) ∧
          (w.closersClose = none →
            (s.Close w).1 = none ∧ (s.Close w).2.2 = stageOrder s.networks)))) := by
  refine ⟨?_, ?_, ?_⟩
  · obtain ⟨r, hr⟩ := closeNetworks_trace_initial w s.networks 0
    have hnone := closeNetworks_none_trace w s.networks 0
    unfold Sbot.Close stageOrder
    simp only [hopen, Bool.false_eq_true, if_false]
    rcases hn : closeNetworks w 0 s.networks with ⟨res, ev⟩
    rw [hn] at hr hnone
    cases res with
    | some e =>
      exact ⟨r ++ [Event.muxservGroupWait, Event.idxDoneWait, Event.closersClose], by
        simp [hr]⟩
    | none =>
      have hev : ev = networkStage 0 s.networks := hnone rfl
      cases hm : w.muxservGroupWait with
      | some e => exact ⟨[Event.idxDoneWait, Event.closersClose], by simp [hev]⟩
      | none =>
        cases hi : w.idxDoneWait with
        | some e => exact ⟨[Event.closersClose], by simp [hev]⟩
        | none =>
          cases hcl : w.closersClose with
          | some e => exact ⟨[], by simp [hev]⟩
          | none => exact ⟨[], by simp [hev]⟩
  · intro k n e hk hok hfail
    have h := closeNetworks_of_first_failure w s.networks 0 k n e hk
      (by simpa using hok) (by simpa using hfail)
    simp only [Nat.zero_add] at h
    simp [Sbot.Close, hopen, h]
  · intro hok
    have h := closeNetworks_of_all_ok w s.networks 0 (by simpa using hok)
    refine ⟨?_, ?_⟩
    · intro e hm
      simp [Sbot.Close, hopen, h, hm]
    · intro hm
      refine ⟨?_, ?_⟩
      · intro e hi
        simp [Sbot.Close, hopen, h, hm, hi]
      · intro hi
        refine ⟨?_, ?_⟩
        · intro e hcl
          simp [Sbot.Close, hopen, h, hm, hi, hcl, stageOrder]
        · intro hcl
          simp [Sbot.Close, hopen, h, hm, hi, hcl, stageOrder]

theorem Close_stages_in_order_witness :
    (sbotEx false 1).closed = false ∧
    ((sbotEx false 1).Close (worldEx (some (Error.ext 4)) (some (Error.ext 5)) none none)).1 =
      some (Error.wrap (Error.ext 4) (networkCloseMsg 1)) ∧
    ((sbotEx false 1).Close (worldEx (some (Error.ext 4)) (some (Error.ext 5)) none none)).2.2 =
      networkStage 0 ((sbotEx false 1).networks.take 1) ++ [Event.networkClose 1 11] :=
  ⟨rfl, (Close_stages_in_order (sbotEx false 1)
    (worldEx (some (Error.ext 4)) (some (Error.ext 5)) none none) rfl).2.1 1 11 (Error.ext 4) rfl
    (by decide) rfl⟩

/-! ## The broadcaster: `removeSubscription` -/

theorem get_at_length_of_append (pre xs : List channelWithContext) (x : channelWithContext) :
    (pre ++ x :: xs).get? pre.length = some x := by
  induction pre with
  | nil => rfl
  | cons p ps ih => simpa using ih

theorem removeSubscriptionLoop_not_found (pre post : List channelWithContext) (ch : Chan)
    (h : ∀ x ∈ post, x.Ch ≠ ch) :
    removeSubscriptionLoop (pre ++ post) ch post.length pre.length = none := by
  induction post generalizing pre with
  | nil => rfl
  | cons x xs ih =>
    have hx : x.Ch ≠ ch := h x (by simp)
    have hxs : ∀ y ∈ xs, y.Ch ≠ ch := fun y hy => h y (by simp [hy])
    have hget : (pre ++ x :: xs).get? pre.length = some x := get_at_length_of_append pre xs x
    have hrec := ih (pre ++ [x]) hxs
    simp only [List.append_assoc, List.singleton_append, List.length_append,
      List.length_singleton] at hrec
    simp only [List.length_cons, removeSubscriptionLoop, hget, if_neg hx]
    exact hrec

theorem removeSubscriptionLoop_found (pre l1 l2 : List channelWithContext)
    (s : channelWithContext) (ch : Chan) (h1 : ∀ x ∈ l1, x.Ch ≠ ch) (hs : s.Ch = ch) :
    removeSubscriptionLoop (pre ++ (l1 ++ s :: l2)) ch (l1 ++ s :: l2).length pre.length
      = some (pre ++ (l1 ++ l2)) := by
  induction l1 generalizing pre with
  | nil =>
    have hget : (pre ++ s :: l2).get? pre.length = some s := get_at_length_of_append pre l2 s
    have htake : List.take pre.length (pre ++ s :: l2) = pre := by simp
    have hdrop : List.drop (pre.length + 1) (pre ++ s :: l2) = l2 := by
      rw [List.drop_append_eq_append_drop]
      simp
    simp only [List.nil_append, List.length_cons, removeSubscriptionLoop, hget, if_pos hs,
      htake, hdrop]
  | cons x xs ih =>
    have hx : x.Ch ≠ ch := h1 x (by simp)
    have hxs : ∀ y ∈ xs, y.Ch ≠ ch := fun y hy => h1 y (by simp [hy])
    have hget : (pre ++ x :: (xs ++ s :: l2)).get? pre.length = some x :=
      get_at_length_of_append pre (xs ++ s :: l2) x
    have hrec := ih (pre ++ [x]) hxs
    simp only [List.append_assoc, List.singleton_append, List.length_append,
      List.length_singleton] at hrec
    simp only [List.cons_append, List.length_cons, removeSubscriptionLoop, hget, if_neg hx]
    simpa using hrec

theorem exists_first_with_channel (l : List channelWithContext) (ch : Chan)
    (h : ∃ s ∈ l, s.Ch = ch) :
    ∃ l1 s l2, l = l1 ++ s :: l2 ∧ (∀ x ∈ l1, x.Ch ≠ ch) ∧ s.Ch = ch := by
  induction l with
  | nil => simp at h
  | cons x xs ih =>
    by_cases hx : x.Ch = ch
    · exact ⟨[], x, xs, rfl, by simp, hx⟩
    · have h2 : ∃ s ∈ xs, s.Ch = ch := by
        obtain ⟨s, hs, hsc⟩ := h
        rcases List.mem_cons.mp hs with rfl | hs
        · exact absurd hsc hx
        · exact ⟨s, hs, hsc⟩
      obtain ⟨l1, s, l2, hl, h1, hs⟩ := ih h2
      refine ⟨x :: l1, s, l2, by simp [hl], ?_, hs⟩
      intro y hy
      rcases List.mem_cons.mp hy with rfl | hy
      · exact hx
      · exact h1 y hy

theorem removeSubscription_not_found (g : PushBlobPubsub) (ch : Chan)
    (h : ∀ x ∈ g.subscriptions, x.Ch ≠ ch) :
    g.removeSubscription ch = Except.error alreadyRemovedPanic := by
  have := removeSubscriptionLoop_not_found [] g.subscriptions ch h
  simp only [List.nil_append, List.length_nil] at this
  simp [PushBlobPubsub.removeSubscription, this]

theorem removeSubscription_found (g : PushBlobPubsub) (ch : Chan)
    (l1 l2 : List channelWithContext) (s : channelWithContext)
    (hl : g.subscriptions = l1 ++ s :: l2) (h1 : ∀ x ∈ l1, x.Ch ≠ ch) (hs : s.Ch = ch) :
    g.removeSubscription ch = Except.ok { subscriptions := l1 ++ l2 } := by
  have := removeSubscriptionLoop_found [] l1 l2 s ch h1 hs
  simp only [List.nil_append, List.length_nil] at this
  unfold PushBlobPubsub.removeSubscription
  rw [hl, this]

theorem channel_absent_of_nodup (l1 l2 : List channelWithContext) (s : channelWithContext)
    (hnd : ((l1 ++ s :: l2).map (fun x => x.Ch)).Nodup) :
    ∀ x ∈ l1 ++ l2, x.Ch ≠ s.Ch := by
  intro x hx hxc
  rw [List.map_append, List.map_cons] at hnd
  have hnd2 := List.nodup_middle.mp hnd
  have hnot : s.Ch ∉ (l1.map (fun x => x.Ch)) ++ (l2.map (fun x => x.Ch)) :=
    (List.nodup_cons.mp hnd2).1
  apply hnot
  rw [← List.map_append, ← hxc]
  exact List.mem_map_of_mem _ hx

/-- C10: `removeSubscription(ch)` panics if and only if no registered subscription has
channel `ch`; otherwise it removes exactly one entry, the first one whose channel is
`ch`, and keeps every other subscription in its original order. Consequently, when the
registered channels are pairwise distinct, removing a registered channel succeeds and
a second removal of the same channel panics. -/
theorem removeSubscription_panics_iff_absent (g : PushBlobPubsub) (ch : Chan) :
    (g.removeSubscription ch = Except.error alreadyRemovedPanic ↔
      ∀ x ∈ g.subscriptions, x.Ch ≠ ch) ∧
    ((∃ x ∈ g.subscriptions, x.Ch = ch) →
      ∃ l1 s l2, g.subscriptions = l1 ++ s :: l2 ∧ (∀ x ∈ l1, x.Ch ≠ ch) ∧ s.Ch = ch ∧
        g.removeSubscription ch = Except.ok { subscriptions := l1 ++ l2 }) ∧
    ((g.subscriptions.map (fun x => x.Ch)).Nodup → (∃ x ∈ g.subscriptions, x.Ch = ch) →
      ∃ g1, g.removeSubscription ch = Except.ok g1 ∧
        g1.subscriptions.length + 1 = g.subscriptions.length ∧
        g1.removeSubscription ch = Except.error alreadyRemovedPanic) := by
  have hfound : (∃ x ∈ g.subscriptions, x.Ch = ch) →
      ∃ l1 s l2, g.subscriptions = l1 ++ s :: l2 ∧ (∀ x ∈ l1, x.Ch ≠ ch) ∧ s.Ch = ch ∧
        g.removeSubscription ch = Except.ok { subscriptions := l1 ++ l2 } := by
    intro h
    obtain ⟨l1, s, l2, hl, h1, hs⟩ := exists_first_with_channel g.subscriptions ch h
    exact ⟨l1, s, l2, hl, h1, hs, removeSubscription_found g ch l1 l2 s hl h1 hs⟩
  refine ⟨⟨?_, removeSubscription_not_found g ch⟩, hfound, ?_⟩
  · intro herr x hx hxc
    obtain ⟨l1, s, l2, _, _, _, hok⟩ := hfound ⟨x, hx, hxc⟩
    rw [hok] at herr
    cases herr
  · intro hnd h
    obtain ⟨l1, s, l2, hl, h1, hs, hok⟩ := hfound h
    refine ⟨{ subscriptions := l1 ++ l2 }, hok, by simp [hl]; omega, ?_⟩
    apply removeSubscription_not_found
    rw [hl] at hnd
    have := channel_absent_of_nodup l1 l2 s hnd
    intro x hx
    rw [← hs]
    exact this x hx

theorem removeSubscription_panics_iff_absent_witness :
    (PushBlobPubsub.mk [⟨0, 5⟩, ⟨1, 6⟩, ⟨2, 5⟩]).removeSubscription 1 =
      Except.ok { subscriptions := [⟨0, 5⟩, ⟨2, 5⟩] } ∧
    ∃ g1, (PushBlobPubsub.mk [⟨0, 5⟩, ⟨1, 6⟩, ⟨2, 5⟩]).removeSubscription 1 = Except.ok g1 ∧
      g1.subscriptions.length + 1 = (PushBlobPubsub.mk [⟨0, 5⟩, ⟨1, 6⟩, ⟨2, 5⟩]).subscriptions.length ∧
      g1.removeSubscription 1 = Except.error alreadyRemovedPanic :=
  ⟨rfl, (removeSubscription_panics_iff_absent ⟨[⟨0, 5⟩, ⟨1, 6⟩, ⟨2, 5⟩]⟩ 1).2.2 (by decide)
    ⟨⟨1, 6⟩, by decide, rfl⟩⟩

/-! ## The broadcaster: `Publish` -/

theorem publishLoop_of_live (value : BlobRef) (env : Nat → SelectEnv)
    (subs : List channelWithContext) (i : Nat)
    (hlive : ∀ j, j < subs.length → selectCase (env (i + j)) ≠ none) :
    ∃ evs, publishLoop value env i subs = some evs ∧
      evs.map (fun ev => ev.sub) = subs ∧
      (∀ ev ∈ evs, ev.value = value) ∧
      (∀ j ev, evs.get? j = some ev → selectCase (env (i + j)) = some ev.case) := by
  induction subs generalizing i with
  | nil => exact ⟨[], rfl, rfl, by simp, by simp⟩
  | cons sub rest ih =>
    have h0 : selectCase (env i) ≠ none := by simpa using hlive 0 (by simp)
    obtain ⟨c, hc⟩ := Option.ne_none_iff_exists'.mp h0
    have hrest : ∀ j, j < rest.length → selectCase (env (i + 1 + j)) ≠ none := by
      intro j hj
      have := hlive (j + 1) (by simpa using hj)
      rwa [show i + (j + 1) = i + 1 + j by omega] at this
    obtain ⟨evs, hevs, hmap, hval, hcase⟩ := ih (i + 1) hrest
    refine ⟨{ sub := sub, value := value, case := c } :: evs, ?_, ?_, ?_, ?_⟩
    · simp [publishLoop, hc, hevs]
    · simp [hmap]
    · intro ev hev
      rcases List.mem_cons.mp hev with rfl | hev
      · rfl
      · exact hval ev hev
    · intro j ev hj
      cases j with
      | zero =>
        have : ev = { sub := sub, value := value, case := c } := by simpa using hj.symm
        simpa [this] using hc
      | succ j =>
        have hj1 : evs.get? j = some ev := by simpa using hj
        have := hcase j ev hj1
        rwa [show i + 1 + j = i + (j + 1) by omega] at this

theorem received_append (ch : Chan) (t1 t2 : List SelectEvent) :
    received ch (t1 ++ t2) = received ch t1 ++ received ch t2 := by
  simp [received]

theorem received_of_channel_absent (ch : Chan) (evs : List SelectEvent)
    (h : ∀ ev ∈ evs, ev.sub.Ch ≠ ch) : received ch evs = [] := by
  induction evs with
  | nil => rfl
  | cons e rest ih =>
    have he : e.sub.Ch ≠ ch := h e (by simp)
    have hr := ih (fun ev hev => h ev (by simp [hev]))
    unfold received at hr ⊢
    simp [List.filter_cons, he, hr]

theorem received_of_nodup (evs : List SelectEvent)
    (hnd : (evs.map (fun ev => ev.sub.Ch)).Nodup) (j : Nat) (ev : SelectEvent)
    (hj : evs.get? j = some ev) :
    received ev.sub.Ch evs = if ev.case = SelectCase.send then [ev.value] else [] := by
  induction evs generalizing j with
  | nil => simp at hj
  | cons e rest ih =>
    have hnd2 : e.sub.Ch ∉ rest.map (fun ev => ev.sub.Ch) ∧
        (rest.map (fun ev => ev.sub.Ch)).Nodup := by
      rw [List.map_cons] at hnd
      exact List.nodup_cons.mp hnd
    cases j with
    | zero =>
      have hev : e = ev := by simpa using hj
      subst hev
      have habs : ∀ x ∈ rest, x.sub.Ch ≠ e.sub.Ch := by
        intro x hx hxc
        exact hnd2.1 (by rw [← hxc]; exact List.mem_map_of_mem (fun ev => ev.sub.Ch) hx)
      have hr := received_of_channel_absent e.sub.Ch rest habs
      unfold received at hr ⊢
      by_cases hc : e.case = SelectCase.send
      · simp [List.filter_cons, hc, hr]
      · simp [List.filter_cons, hc, hr]
    | succ j =>
      have hj1 : rest.get? j = some ev := by simpa using hj
      have hmem : ev ∈ rest := List.get?_mem hj1
      have hne : e.sub.Ch ≠ ev.sub.Ch := by
        intro hxc
        exact hnd2.1 (by rw [hxc]; exact List.mem_map_of_mem (fun ev => ev.sub.Ch) hmem)
      have hr := ih hnd2.2 j hj1
      unfold received at hr ⊢
      simp only [List.filter_cons, hne, decide_False, Bool.false_and, Bool.false_eq_true,
        if_false]
      exact hr

theorem received_sublist_singleton (ch : Chan) (value : BlobRef) (evs : List SelectEvent)
    (hnd : (evs.map (fun ev => ev.sub.Ch)).Nodup) (hval : ∀ ev ∈ evs, ev.value = value) :
    (received ch evs).Sublist [value] := by
  by_cases h : ∃ ev ∈ evs, ev.sub.Ch = ch
  · obtain ⟨ev, hev, hch⟩ := h
    obtain ⟨j, hj⟩ := List.get?_of_mem hev
    have := received_of_nodup evs hnd j ev hj
    rw [hch, hval ev hev] at this
    rw [this]
    split
    · exact List.Sublist.refl _
    · exact List.nil_sublist _
  · have habs : ∀ ev ∈ evs, ev.sub.Ch ≠ ch := fun ev hev hc => h ⟨ev, hev, hc⟩
    rw [received_of_channel_absent ch evs habs]
    exact List.nil_sublist _

theorem Publish_of_live (g : PushBlobPubsub) (value : BlobRef) (env : Nat → SelectEnv)
    (hlive : ∀ j, j < g.subscriptions.length → selectCase (env j) ≠ none) :
    ∃ trace, g.Publish value env = some (g, trace) ∧
      trace.map (fun ev => ev.sub) = g.subscriptions ∧
      (∀ ev ∈ trace, ev.value = value) ∧
      (∀ j ev, trace.get? j = some ev → selectCase (env j) = some ev.case) := by
  obtain ⟨evs, hevs, hmap, hval, hcase⟩ :=
    publishLoop_of_live value env g.subscriptions 0 (by simpa using hlive)
  refine ⟨evs, by simp [PushBlobPubsub.Publish, hevs], hmap, hval, ?_⟩
  intro j ev hj
  simpa using hcase j ev hj

theorem publishAll_of_live (g : PushBlobPubsub) (calls : List (BlobRef × (Nat → SelectEnv)))
    (hlive : ∀ c ∈ calls, ∀ j, j < g.subscriptions.length → selectCase (c.2 j) ≠ none)
    (hdistinct : (g.subscriptions.map (fun x => x.Ch)).Nodup) :
    ∃ trace, publishAll g calls = some (g, trace) ∧
      ∀ ch, (received ch trace).Sublist (calls.map (fun c => c.1)) := by
  induction calls with
  | nil => exact ⟨[], rfl, fun ch => List.Sublist.refl _⟩
  | cons c rest ih =>
    obtain ⟨value, env⟩ := c
    obtain ⟨evs, hpub, hmap, hval, -⟩ :=
      Publish_of_live g value env (hlive (value, env) (by simp))
    obtain ⟨evs2, hall, hsub⟩ := ih (fun c hc => hlive c (by simp [hc]))
    refine ⟨evs ++ evs2, by simp [publishAll, hpub, hall], ?_⟩
    intro ch
    have hnd : (evs.map (fun ev => ev.sub.Ch)).Nodup := by
      have : evs.map (fun ev => ev.sub.Ch) = g.subscriptions.map (fun x => x.Ch) := by
        rw [← hmap, List.map_map]
        rfl
      rw [this]
      exact hdistinct
    rw [received_append, List.map_cons]
    exact List.Sublist.append (received_sublist_singleton ch value evs hnd hval) (hsub ch)

/-- C8, as stated, fails in two ways. A subscriber whose scope has concluded is not always
skipped: when a receiver is waiting on its channel as well, the `select` may take the
send, and the reference is delivered. And `Publish` does not always get to every
subscription: when the `select` of the first one can never proceed, `Publish` never
returns and the second one, whose receiver is waiting, is never offered the reference. -/
theorem Publish_concluded_not_always_skipped :
    (envBothReady 0).ctxDone = true ∧
    (PushBlobPubsub.mk [⟨0, 5⟩]).Publish 7 envBothReady =
      some (⟨[⟨0, 5⟩]⟩, [⟨⟨0, 5⟩, 7, SelectCase.send⟩]) ∧
    received 0 [⟨⟨0, 5⟩, 7, SelectCase.send⟩] = [7] ∧
    (envStalled 1).recvReady = true ∧
    (PushBlobPubsub.mk [⟨0, 5⟩, ⟨1, 6⟩]).Publish 7 envStalled = none := by
  decide

/-- C8, amended: for every list of registered subscriptions with pairwise distinct
channels and every sequence of `Publish` calls in each of which every `select` resolves
(a receiver accepts or the scope concludes), each call returns, leaves the registered
subscriptions as they were, and offers its reference to each registered subscription
exactly once, in registration order; a subscriber gets the reference exactly once when
its `select` takes the send and not at all when it takes the scope's conclusion; a
subscriber whose scope has concluded and on whose channel no receiver is waiting is
skipped, one whose receiver is waiting and whose scope is open gets the reference (when
both hold the `select` may go either way); hence over the successive calls one
subscriber sees the references in call order, each call's reference at most once. -/
theorem Publish_offers_each_subscription_once (g : PushBlobPubsub)
    (calls : List (BlobRef × (Nat → SelectEnv)))
    (hlive : ∀ c ∈ calls, ∀ j, j < g.subscriptions.length → selectCase (c.2 j) ≠ none)
    (hdistinct : (g.subscriptions.map (fun x => x.Ch)).Nodup) :
    (∀ c ∈ calls, ∃ trace, g.Publish c.1 c.2 = some (g, trace) ∧
      trace.map (fun ev => ev.sub) = g.subscriptions ∧
      (∀ ev ∈ trace, ev.value = c.1) ∧
      (∀ j ev, trace.get? j = some ev →
        selectCase (c.2 j) = some ev.case ∧
        received ev.sub.Ch trace = (if ev.case = SelectCase.send then [c.1] else []) ∧
        ((c.2 j).ctxDone = true → (c.2 j).recvReady = false → ev.case = SelectCase.done) ∧
        ((c.2 j).recvReady = true → (c.2 j).ctxDone = false → ev.case = SelectCase.send))) ∧
    (∃ trace, publishAll g calls = some (g, trace) ∧
      ∀ ch, (received ch trace).Sublist (calls.map (fun c => c.1))) := by
  refine ⟨?_, publishAll_of_live g calls hlive hdistinct⟩
  intro c hc
  obtain ⟨trace, hpub, hmap, hval, hcase⟩ := Publish_of_live g c.1 c.2 (hlive c hc)
  refine ⟨trace, hpub, hmap, hval, ?_⟩
  intro j ev hj
  have hsel := hcase j ev hj
  have hnd : (trace.map (fun ev => ev.sub.Ch)).Nodup := by
    have : trace.map (fun ev => ev.sub.Ch) = g.subscriptions.map (fun x => x.Ch) := by
      rw [← hmap, List.map_map]
      rfl
    rw [this]
    exact hdistinct
  have hrec := received_of_nodup trace hnd j ev hj
  rw [hval ev (List.get?_mem hj)] at hrec
  refine ⟨hsel, hrec, ?_, ?_⟩
  · intro hd hr
    simpa [selectCase, hd, hr] using hsel.symm
  · intro hr hd
    simpa [selectCase, hd, hr] using hsel.symm

theorem Publish_offers_each_subscription_once_witness :
    (∃ trace, (PushBlobPubsub.mk [⟨0, 5⟩, ⟨1, 6⟩]).Publish 7 envFirstReceives =
        some (⟨[⟨0, 5⟩, ⟨1, 6⟩]⟩, trace) ∧
      trace.map (fun ev => ev.sub) = [⟨0, 5⟩, ⟨1, 6⟩]) ∧
    (∃ trace, publishAll ⟨[⟨0, 5⟩, ⟨1, 6⟩]⟩ [(7, envFirstReceives), (8, envAllReceiveLater)] =
        some (⟨[⟨0, 5⟩, ⟨1, 6⟩]⟩, trace) ∧
      ∀ ch, (received ch trace).Sublist [7, 8]) :=
  have h := Publish_offers_each_subscription_once ⟨[⟨0, 5⟩, ⟨1, 6⟩]⟩
    [(7, envFirstReceives), (8, envAllReceiveLater)] (by decide) (by decide)
  ⟨(h.1 (7, envFirstReceives) (by simp)).imp (fun _ ht => ⟨ht.1, ht.2.1⟩), h.2⟩

/-! ## The broadcaster: the active set over its lifetime -/

theorem Consistent_init : Broadcaster.init.Consistent :=
  ⟨by simp [Broadcaster.init], by simp [Broadcaster.init],
    by simp [Broadcaster.init, NewPushBlobPubsub], by simp [Broadcaster.init]⟩

theorem Consistent_Subscribe (b : Broadcaster) (ctx : Context) (h : b.Consistent) :
    (b.Subscribe ctx).2.Consistent := by
  have hnew : ∀ sub ∈ b.created, sub.Ch ≠ b.nextCh := fun sub hs =>
    Nat.ne_of_lt (h.fresh sub hs)
  have hnotcreated : (⟨b.nextCh, ctx⟩ : channelWithContext) ∉ b.created :=
    fun hm => hnew _ hm rfl
  have hnotremoved : (⟨b.nextCh, ctx⟩ : channelWithContext) ∉ b.removed :=
    fun hm => hnotcreated (h.removedOk _ hm).1
  refine ⟨?_, ?_, ?_, ?_⟩
  · intro sub hs
    simp only [Broadcaster.Subscribe, List.mem_append, List.mem_singleton] at hs ⊢
    rcases hs with hs | rfl
    · exact Nat.lt_succ_of_lt (h.fresh sub hs)
    · exact Nat.lt_succ_self _
  · simp only [Broadcaster.Subscribe, List.map_append, List.map_cons, List.map_nil]
    refine List.Nodup.append h.distinct (List.nodup_singleton _) ?_
    intro c hc1 hc2
    obtain ⟨sub, hs, rfl⟩ := List.mem_map.mp hc1
    exact hnew sub hs (by simpa using hc2)
  · simp only [Broadcaster.Subscribe, PushBlobPubsub.addSubscription, List.filter_append, h.active]
    congr 1
    simp [List.filter_cons, hnotremoved]
  · intro sub hs
    have := h.removedOk sub hs
    simp only [Broadcaster.Subscribe, List.mem_append]
    exact ⟨Or.inl this.1, this.2⟩

theorem filter_ne_of_nodup (l1 l2 : List channelWithContext) (s : channelWithContext)
    (hnd : (l1 ++ s :: l2).Nodup) :
    (l1 ++ s :: l2).filter (fun x => decide (x ≠ s)) = l1 ++ l2 := by
  have hnd2 := List.nodup_middle.mp hnd
  have hs : s ∉ l1 ++ l2 := (List.nodup_cons.mp hnd2).1
  have h1 : l1.filter (fun x => decide (x ≠ s)) = l1 :=
    List.filter_eq_self.mpr (fun a ha => by
      have : a ≠ s := fun e => hs (by simp [← e, ha])
      simpa using this)
  have h2 : l2.filter (fun x => decide (x ≠ s)) = l2 :=
    List.filter_eq_self.mpr (fun a ha => by
      have : a ≠ s := fun e => hs (by simp [← e, ha])
      simpa using this)
  rw [List.filter_append, List.filter_cons, h1, h2]
  simp

/-- In a consistent state the watcher of a created, not yet removed subscription whose
scope has concluded runs without a panic, and removes exactly that subscription. -/
theorem watcher_of_consistent (b : Broadcaster) (sub : channelWithContext) (h : b.Consistent)
    (hc : sub ∈ b.created) (hr : sub ∉ b.removed) (hd : sub.Ctx ∈ b.concluded) :
    b.watcher sub = some { b with
      g := { subscriptions := b.created.filter (fun x => decide (x ∉ sub :: b.removed)) }
      removed := sub :: b.removed
      closedChans := sub.Ch :: b.closedChans } := by
  have hmem : sub ∈ b.g.subscriptions := by
    rw [h.active]
    exact List.mem_filter.mpr ⟨hc, by simpa using hr⟩
  have hsubl : (b.g.subscriptions.map (fun x => x.Ch)).Sublist (b.created.map (fun x => x.Ch)) := by
    rw [h.active]
    exact List.Sublist.map _ (List.filter_sublist _)
  have hndc : (b.g.subscriptions.map (fun x => x.Ch)).Nodup := List.Nodup.sublist hsubl h.distinct
  obtain ⟨l1, s, l2, hl, h1, hs⟩ :=
    exists_first_with_channel b.g.subscriptions sub.Ch ⟨sub, hmem, rfl⟩
  have hsmem : s ∈ b.g.subscriptions := by simp [hl]
  have hseq : s = sub := List.inj_on_of_nodup_map hndc hsmem hmem hs
  subst hseq
  have hok := removeSubscription_found b.g s.Ch l1 l2 s hl h1 rfl
  have hnd : (l1 ++ s :: l2).Nodup := by
    rw [← hl]
    exact List.Nodup.of_map _ hndc
  have hfilter : l1 ++ l2 = b.created.filter (fun x => decide (x ∉ s :: b.removed)) := by
    rw [← filter_ne_of_nodup l1 l2 s hnd, ← hl, h.active, List.filter_filter]
    congr 1
    funext x
    simp
  unfold Broadcaster.watcher
  rw [if_pos ⟨hc, hr, hd⟩, hok, hfilter]

theorem Consistent_watcher (b b1 : Broadcaster) (sub : channelWithContext) (h : b.Consistent)
    (hw : b.watcher sub = some b1) : b1.Consistent := by
  by_cases hcond : sub ∈ b.created ∧ sub ∉ b.removed ∧ sub.Ctx ∈ b.concluded
  · rw [watcher_of_consistent b sub h hcond.1 hcond.2.1 hcond.2.2] at hw
    cases hw
    refine ⟨h.fresh, h.distinct, rfl, ?_⟩
    intro x hx
    rcases List.mem_cons.mp hx with rfl | hx
    · exact ⟨hcond.1, hcond.2.2⟩
    · exact h.removedOk x hx
  · simp [Broadcaster.watcher, hcond] at hw

theorem Publish_keeps_subscriptions (g g1 : PushBlobPubsub) (value : BlobRef)
    (env : Nat → SelectEnv) (trace : List SelectEvent)
    (h : g.Publish value env = some (g1, trace)) : g1 = g := by
  unfold PushBlobPubsub.Publish at h
  cases hl : publishLoop value env 0 g.subscriptions with
  | none => simp [hl] at h
  | some evs =>
    simp only [hl, Option.some.injEq, Prod.mk.injEq] at h
    exact h.1.symm

theorem Consistent_step (b b1 : Broadcaster) (a : Action) (h : b.Consistent)
    (hs : b.step a = some b1) : b1.Consistent := by
  cases a with
  | subscribe ctx =>
    simp only [Broadcaster.step, Option.some.injEq] at hs
    rw [← hs]
    exact Consistent_Subscribe b ctx h
  | conclude ctx =>
    simp only [Broadcaster.step, Option.some.injEq] at hs
    rw [← hs]
    exact ⟨h.fresh, h.distinct, h.active, fun x hx =>
      ⟨(h.removedOk x hx).1, List.mem_cons_of_mem _ (h.removedOk x hx).2⟩⟩
  | watcher sub => exact Consistent_watcher b b1 sub h hs
  | publish value env =>
    simp only [Broadcaster.step] at hs
    cases hp : b.g.Publish value env with
    | none => simp [hp] at hs
    | some r =>
      obtain ⟨g1, trace⟩ := r
      have hg := Publish_keeps_subscriptions b.g g1 value env trace hp
      simp only [hp, Option.some.injEq] at hs
      rw [← hs, hg]
      exact h

theorem Consistent_run (b b1 : Broadcaster) (actions : List Action) (h : b.Consistent)
    (hr : b.run actions = some b1) : b1.Consistent := by
  induction actions generalizing b with
  | nil =>
    simp only [Broadcaster.run, Option.some.injEq] at hr
    rw [← hr]
    exact h
  | cons a rest ih =>
    simp only [Broadcaster.run] at hr
    cases hs : b.step a with
    | none => simp [hs] at hr
    | some b2 =>
      simp only [hs] at hr
      exact ih b2 (Consistent_step b b2 a h hs) hr

/-- At every point of the broadcaster's life the registered channels are pairwise
distinct: each `Subscribe` makes a new channel. -/
theorem subscriptions_distinct_of_run (actions : List Action) (b : Broadcaster)
    (hrun : Broadcaster.init.run actions = some b) :
    (b.g.subscriptions.map (fun x => x.Ch)).Nodup := by
  have h := Consistent_run Broadcaster.init b actions Consistent_init hrun
  have hsubl : (b.g.subscriptions.map (fun x => x.Ch)).Sublist (b.created.map (fun x => x.Ch)) := by
    rw [h.active]
    exact List.Sublist.map _ (List.filter_sublist _)
  exact List.Nodup.sublist hsubl h.distinct

/-- At every point of the broadcaster's life the watcher of a registered subscription whose
scope has concluded can run its removal, and `removeSubscription` does not panic in it. -/
theorem watcher_runs_of_run (actions : List Action) (b : Broadcaster)
    (hrun : Broadcaster.init.run actions = some b) (sub : channelWithContext)
    (hmem : sub ∈ b.g.subscriptions) (hd : sub.Ctx ∈ b.concluded) :
    ∃ b1, b.watcher sub = some b1 ∧ sub ∉ b1.g.subscriptions := by
  have h := Consistent_run Broadcaster.init b actions Consistent_init hrun
  have hm : sub ∈ b.created ∧ sub ∉ b.removed := by
    rw [h.active, List.mem_filter] at hmem
    simpa using hmem
  refine ⟨_, watcher_of_consistent b sub h hm.1 hm.2 hd, ?_⟩
  simp [List.mem_filter]

/-- C9, as stated, fails: after `Subscribe` with scope `5` and the conclusion of scope
`5`, before the watcher goroutine has run its removal, the subscription is still in the
active set although its scope has concluded. -/
theorem active_set_holds_concluded_subscription :
    Broadcaster.init.run [Action.subscribe 5, Action.conclude 5] = some bConcludedPending ∧
    (⟨0, 5⟩ : channelWithContext) ∈ bConcludedPending.g.subscriptions ∧
    (⟨0, 5⟩ : channelWithContext) ∈ bConcludedPending.created ∧
    (⟨0, 5⟩ : channelWithContext).Ctx ∈ bConcludedPending.concluded ∧
    ¬ ((⟨0, 5⟩ : channelWithContext) ∈ bConcludedPending.g.subscriptions ↔
      ((⟨0, 5⟩ : channelWithContext) ∈ bConcludedPending.created ∧
        (⟨0, 5⟩ : channelWithContext).Ctx ∉ bConcludedPending.concluded)) := by
  decide

/-- C9, amended: at every observation point between mutations of the broadcaster
(subscribe, scope conclusion, watcher removal, publish), a subscription is present in
the active set if and only if it was created by a `Subscribe` call and its watcher has
not yet run its removal; a watcher runs its removal only after the scope has concluded,
so every subscription created by a `Subscribe` call whose scope has not yet concluded
is present, while one whose scope has concluded stays present until its watcher runs. -/
theorem active_set_until_watcher_removal (actions : List Action) (b : Broadcaster)
    (hrun : Broadcaster.init.run actions = some b) (sub : channelWithContext) :
    (sub ∈ b.g.subscriptions ↔ sub ∈ b.created ∧ sub ∉ b.removed) ∧
    (sub ∈ b.removed → sub ∈ b.created ∧ sub.Ctx ∈ b.concluded) ∧
    (sub ∈ b.created → sub.Ctx ∉ b.concluded → sub ∈ b.g.subscriptions) := by
  have h := Consistent_run Broadcaster.init b actions Consistent_init hrun
  have hiff : sub ∈ b.g.subscriptions ↔ sub ∈ b.created ∧ sub ∉ b.removed := by
    rw [h.active, List.mem_filter]
    simp
  refine ⟨hiff, h.removedOk sub, ?_⟩
  intro hc hopen
  exact hiff.mpr ⟨hc, fun hr => hopen (h.removedOk sub hr).2⟩

theorem active_set_until_watcher_removal_witness :
    Broadcaster.init.run
        [Action.subscribe 5, Action.subscribe 6, Action.conclude 5, Action.watcher ⟨0, 5⟩,
          Action.publish 7 envAllReceiveLater] = some bOneRemoved ∧
    ((⟨1, 6⟩ : channelWithContext) ∈ bOneRemoved.g.subscriptions ↔
      (⟨1, 6⟩ : channelWithContext) ∈ bOneRemoved.created ∧
        (⟨1, 6⟩ : channelWithContext) ∉ bOneRemoved.removed) ∧
    ((⟨1, 6⟩ : channelWithContext) ∈ bOneRemoved.removed →
      (⟨1, 6⟩ : channelWithContext) ∈ bOneRemoved.created ∧
        (⟨1, 6⟩ : channelWithContext).Ctx ∈ bOneRemoved.concluded) ∧
    ((⟨1, 6⟩ : channelWithContext) ∈ bOneRemoved.created →
      (⟨1, 6⟩ : channelWithContext).Ctx ∉ bOneRemoved.concluded →
      (⟨1, 6⟩ : channelWithContext) ∈ bOneRemoved.g.subscriptions) :=
  ⟨by decide,
    active_set_until_watcher_removal
      [Action.subscribe 5, Action.subscribe 6, Action.conclude 5, Action.watcher ⟨0, 5⟩,
        Action.publish 7 envAllReceiveLater]
      bOneRemoved (by decide) ⟨1, 6⟩⟩

end Ssb
